import Mathlib

set_option maxHeartbeats 1000000

/-- The `Recipe` entity shared by all variants (models/recipe.go and the
`main`-package copies). `time.Time` is modelled as a `Nat` tick count whose
Go zero value (`IsZero`) is `0`. -/
structure Recipe where
  ID : String
  Name : String
  Tags : List String
  Ingredients : List String
  Instructions : List String
  PublishedAt : Nat
  deriving DecidableEq

/-- One JSON write performed by a handler via `c.JSON`: the handlers answer
with a recipe, a recipe array, a confirmation message object, or an error
object at status 400/404/500. -/
inductive Response where
  | ok (recipe : Recipe)
  | okList (recipes : List Recipe)
  | message (text : String)
  | badRequest (error : String)
  | notFound (error : String)
  | serverError (error : String)
  deriving DecidableEq

/-- Whether `p` is a prefix of `s`, on rune lists; used to model Go
`strings.Contains`. -/
def hasPrefixChars : List Char → List Char → Bool
  | [], _ => true
  | _ :: _, [] => false
  | p :: ps, c :: cs => p == c && hasPrefixChars ps cs

/-- Substring search over rune lists: `pat` occurs somewhere in `s`.
The empty pattern occurs in every string, as with Go `strings.Contains`. -/
def containsChars : List Char → List Char → Bool
  | [], pat => hasPrefixChars pat []
  | c :: rest, pat => hasPrefixChars pat (c :: rest) || containsChars rest pat

/-- Model of Go `strings.Contains s pat`. -/
def strContains (s pat : String) : Bool := containsChars s.data pat.data

/-- Model of Go `strings.ToLower`: rune-wise lowercasing (the spec notes the
case folding is simple, not locale-aware). -/
def strToLower (s : String) : String := String.mk (s.data.map Char.toLower)

namespace Mem

/-- The `index := -1; for i ... { if recipes[i].ID == id { index = i } }`
loop shared by the in-memory Update and Delete handlers: left-to-right
fold carrying the `index` variable, so the LAST match wins. -/
def loopFind (id : String) : List Recipe → Nat → Int → Int
  | [], _, index => index
  | r :: rest, i, index =>
    loopFind id rest (i + 1) (if r.ID == id then (i : Int) else index)

/-- Result of the scan loop started with `index = -1` at position 0. -/
def findIndex (recipes : List Recipe) (id : String) : Int :=
  loopFind id recipes 0 (-1)

/-- In-memory `NewRecipeHandler` (success path of JSON binding): the fresh
xid and the current time are passed in as parameters `freshId`/`now`;
they unconditionally overwrite whatever the input carried. -/
def NewRecipeHandler (recipes : List Recipe) (input : Recipe)
    (freshId : String) (now : Nat) : Response × List Recipe :=
  let recipe := { input with ID := freshId, PublishedAt := now }
  (Response.ok recipe, recipes ++ [recipe])

/-- In-memory `ListRecipesHandler`: the slice verbatim. -/
def ListRecipesHandler (recipes : List Recipe) : Response :=
  Response.okList recipes

/-- In-memory `UpdateRecipeHandler` (success path of JSON binding): find the
index by the scan loop; on a miss answer 404 and leave the slice alone; on a
hit do `recipes[index] = recipe`, storing the bound input verbatim, and
answer with the input. -/
def UpdateRecipeHandler (recipes : List Recipe) (id : String) (input : Recipe) :
    Response × List Recipe :=
  let index := findIndex recipes id
  if index = -1 then (Response.notFound "Recipe not found", recipes)
  else (Response.ok input, recipes.set index.toNat input)

/-- In-memory `DeleteRecipeHandler`: find the index; on a miss answer 404;
on a hit `recipes = append(recipes[:index], recipes[index+1:]...)`. -/
def DeleteRecipeHandler (recipes : List Recipe) (id : String) :
    Response × List Recipe :=
  let index := findIndex recipes id
  if index = -1 then (Response.notFound "Recipe not found", recipes)
  else (Response.message "Recipe has been deleted",
        recipes.take index.toNat ++ recipes.drop (index.toNat + 1))

/-- The `found` flag loop of the in-memory search:
`found := false; for t in Tags { if strings.Contains(t, tag) { found = true } }`.
Note: no lowercasing in this variant. -/
def foundTag (tags : List String) (tag : String) : Bool :=
  tags.foldl (fun found t => if strContains t tag then true else found) false

/-- The list built by the in-memory search loop: a record is appended once
when its `found` flag ends up true. -/
def searchList (recipes : List Recipe) (tag : String) : List Recipe :=
  recipes.foldl (fun acc r => if foundTag r.Tags tag then acc ++ [r] else acc) []

/-- In-memory `SearchRecipesHandler`: no empty-tag validation at all; always
answers 200 with the accumulated list. -/
def SearchRecipesHandler (recipes : List Recipe) (tag : String) : Response :=
  Response.okList (searchList recipes tag)

/-- The Store abstraction's `findByID` capability as the in-memory code
realises it: the scan loop, a miss being `NotFound` (here `none`). -/
def findByID (recipes : List Recipe) (id : String) : Option Recipe :=
  let index := findIndex recipes id
  if index = -1 then none else recipes.get? index.toNat

/-- In-memory `init`: `recipes = make([]Recipe, 0)` then
`json.Unmarshal(file, &recipes)` — the parsed file records verbatim,
with no id or timestamp assignment, discarding any prior contents. -/
def init (file : List Recipe) : List Recipe := file

end Mem

namespace Db

/-- Model of gorm `Updates` called with a struct argument, as the spec's §9
describes it: a reflective partial merge that assigns only the non-zero
fields of the argument (zero values: `""` for strings, the nil slice for
slices, the zero instant for times). -/
def gormUpdates (existing input : Recipe) : Recipe where
  ID := if input.ID = "" then existing.ID else input.ID
  Name := if input.Name = "" then existing.Name else input.Name
  Tags := if input.Tags = [] then existing.Tags else input.Tags
  Ingredients :=
    if input.Ingredients = [] then existing.Ingredients else input.Ingredients
  Instructions :=
    if input.Instructions = [] then existing.Instructions else input.Instructions
  PublishedAt := if input.PublishedAt = 0 then existing.PublishedAt else input.PublishedAt

/-- Database `NewRecipeHandler` (success path of JSON binding): overwrite the
input's id and publishedAt with the fresh xid and the current time, then
`db.Create`; a duplicate primary key makes the insert fail as a 500. -/
def NewRecipeHandler (dbr : List Recipe) (input : Recipe)
    (freshId : String) (now : Nat) : Response × List Recipe :=
  let recipe := { input with ID := freshId, PublishedAt := now }
  if dbr.any (fun r => r.ID == freshId) then
    (Response.serverError "duplicate key", dbr)
  else
    (Response.ok recipe, dbr ++ [recipe])

/-- Database `ListRecipesHandler` (successful `Find`): all rows in the
table's stable order. -/
def ListRecipesHandler (dbr : List Recipe) : Response :=
  Response.okList dbr

/-- Database `UpdateRecipeHandler` (success path of JSON binding): `First`
on `id = ?` (the first matching row, else 404); then the handler copies the
existing row's `ID` and `PublishedAt` over the bound input and issues
`db.Model(&existingRecipe).Updates(&recipe)` — the partial merge applied to
every row whose id equals the existing row's id — answering with the
merged row. -/
def UpdateRecipeHandler (dbr : List Recipe) (id : String) (input : Recipe) :
    Response × List Recipe :=
  match dbr.find? (fun r => r.ID == id) with
  | none => (Response.notFound "Recipe not found", dbr)
  | some existing =>
      let recipe := { input with ID := existing.ID, PublishedAt := existing.PublishedAt }
      let merged := gormUpdates existing recipe
      (Response.ok merged,
       dbr.map (fun r => if r.ID == existing.ID then merged else r))

/-- Database `DeleteRecipeHandler`: `First` on `id = ?` (404 on a miss),
then `db.Delete(&recipe)` removes the rows carrying that primary key. -/
def DeleteRecipeHandler (dbr : List Recipe) (id : String) :
    Response × List Recipe :=
  match dbr.find? (fun r => r.ID == id) with
  | none => (Response.notFound "Recipe not found", dbr)
  | some recipe =>
      (Response.message "Recipe has been deleted",
       dbr.filter (fun r => !(r.ID == recipe.ID)))

/-- The record list built by the database search's nested loops: for each
row, for each tag, if `strings.Contains(strings.ToLower(t), lowerTag)` the
row is appended — once per matching tag, there is no per-row flag. -/
def searchList (dbr : List Recipe) (tag : String) : List Recipe :=
  let lowerTag := strToLower tag
  dbr.foldl
    (fun acc r =>
      r.Tags.foldl
        (fun acc2 t => if strContains (strToLower t) lowerTag then acc2 ++ [r] else acc2)
        acc)
    []

/-- Database `SearchRecipesHandler` (successful `Find`), modelled as the
sequence of JSON writes the handler performs: on an empty tag it writes the
400 error object but — lacking an early return — still scans the table and
also writes the result list. -/
def SearchRecipesHandler (dbr : List Recipe) (tag : String) : List Response :=
  (if tag = "" then [Response.badRequest "Tag is required"] else [])
    ++ [Response.okList (searchList dbr tag)]

/-- The Store abstraction's `findByID` capability as the database code
realises it: `First` on `id = ?`. -/
def findByID (dbr : List Recipe) (id : String) : Option Recipe :=
  dbr.find? (fun r => r.ID == id)

/-- The insertion loop of `loadInitialData`, carrying the loop position so
the fresh xid and the `time.Now()` reading of each iteration can be passed
in as functions of that position: a record with an empty id gets a fresh
one, a record with a zero timestamp gets the current time, all others are
kept as parsed. -/
def loadLoop (gen : Nat → String) (nows : Nat → Nat) :
    Nat → List Recipe → List Recipe
  | _, [] => []
  | i, r :: rest =>
      let r1 := if r.ID = "" then { r with ID := gen i } else r
      let r2 := if r1.PublishedAt = 0 then { r1 with PublishedAt := nows i } else r1
      r2 :: loadLoop gen nows (i + 1) rest

/-- Database `loadInitialData` (success path): parse `recipes.json`,
`DELETE FROM recipes` (the prior contents are discarded wholesale), then
insert every parsed record through the fix-up loop. -/
def loadInitialData (file prior : List Recipe) (gen : Nat → String)
    (nows : Nat → Nat) : List Recipe :=
  loadLoop gen nows 0 file

end Db

/-- If no element of `rs` has the searched id, the scan loop leaves its
`index` accumulator untouched. -/
theorem loopFind_of_no_match (id : String) (rs : List Recipe) (i : Nat) (index : Int)
    (h : ∀ r ∈ rs, r.ID ≠ id) : Mem.loopFind id rs i index = index := by
  induction rs generalizing i index with
  | nil => rfl
  | cons r rest ih =>
    have hr : (r.ID == id) = false := by
      simpa using h r (List.mem_cons_self _ _)
    simp only [Mem.loopFind, hr, Bool.false_eq_true, if_neg, ite_false]
    exact ih _ _ (fun x hx => h x (List.mem_cons_of_mem _ hx))

/-- `findIndex` answers `-1` exactly when no record carries the id. -/
theorem findIndex_of_no_match (recipes : List Recipe) (id : String)
    (h : ∀ r ∈ recipes, r.ID ≠ id) : Mem.findIndex recipes id = -1 :=
  loopFind_of_no_match id recipes 0 (-1) h

/-- When position `j` holds the unique match, the scan loop, started at
offset `i`, answers `i + j` whatever its accumulator held. -/
theorem loopFind_of_unique (id : String) (rs : List Recipe) (j : Nat)
    (hj : j < rs.length) (hmatch : rs[j].ID = id)
    (huniq : ∀ k, (hk : k < rs.length) → rs[k].ID = id → k = j)
    (i : Nat) (index : Int) :
    Mem.loopFind id rs i index = ((i + j : Nat) : Int) := by
  induction rs generalizing j i index with
  | nil => exact absurd hj (Nat.not_lt_zero _)
  | cons r rest ih =>
    cases j with
    | zero =>
      have hr : (r.ID == id) = true := by
        simpa using hmatch
      have hrest : ∀ x ∈ rest, x.ID ≠ id := by
        intro x hx hxid
        obtain ⟨k, hk, hget⟩ := List.mem_iff_getElem.mp hx
        have : k + 1 = 0 := by
          refine huniq (k + 1) (by simpa using Nat.succ_lt_succ hk) ?_
          simpa [hget] using hxid
        exact Nat.succ_ne_zero _ this
      simp only [Mem.loopFind, hr, ite_true]
      rw [loopFind_of_no_match id rest (i + 1) (i : Int) hrest]
      simp
    | succ k =>
      have hr : (r.ID == id) = false := by
        have : r.ID ≠ id := by
          intro hrid
          have h0 : (0 : Nat) = k + 1 := huniq 0 (Nat.succ_pos _) (by simpa using hrid)
          exact Nat.succ_ne_zero _ h0.symm
        simpa using this
      simp only [Mem.loopFind, hr, Bool.false_eq_true, ite_false]
      have hk : k < rest.length := Nat.lt_of_succ_lt_succ hj
      have hmatch2 : rest[k].ID = id := by
        simpa using hmatch
      have huniq2 : ∀ m, (hm : m < rest.length) → rest[m].ID = id → m = k := by
        intro m hm hmid
        have : m + 1 = k + 1 := by
          refine huniq (m + 1) (by simpa using Nat.succ_lt_succ hm) ?_
          simpa using hmid
        exact Nat.succ_injective this
      rw [ih k hk hmatch2 huniq2 (i + 1) index]
      congr 1
      omega

/-- Under unique ids, `findIndex` answers exactly the position holding the
searched id. -/
theorem findIndex_of_nodup (recipes : List Recipe) (id : String) (j : Nat)
    (hj : j < recipes.length) (hmatch : recipes[j].ID = id)
    (hnd : (recipes.map Recipe.ID).Nodup) :
    Mem.findIndex recipes id = (j : Int) := by
  have huniq : ∀ k, (hk : k < recipes.length) → recipes[k].ID = id → k = j := by
    intro k hk hkid
    have hk2 : k < (recipes.map Recipe.ID).length := by simpa using hk
    have hj2 : j < (recipes.map Recipe.ID).length := by simpa using hj
    have hget : (recipes.map Recipe.ID)[k] = (recipes.map Recipe.ID)[j] := by
      simp [List.getElem_map, hkid, hmatch]
    exact (List.Nodup.getElem_inj_iff hnd).mp hget
  simpa using loopFind_of_unique id recipes j hj hmatch huniq 0 (-1)

/-- The `found`-flag fold equals a boolean-or of the start flag with `any`. -/
theorem foldl_flag (p : String → Bool) (ts : List String) (b : Bool) :
    ts.foldl (fun found t => if p t then true else found) b = (b || ts.any p) := by
  induction ts generalizing b with
  | nil => simp
  | cons t rest ih =>
    rw [List.foldl_cons, ih, List.any_cons]
    cases hp : p t <;> cases b <;> simp [hp]

/-- The in-memory per-record flag is `any` over the tags, with the literal
(case-sensitive) containment test. -/
theorem foundTag_eq_any (ts : List String) (tag : String) :
    Mem.foundTag ts tag = ts.any (fun t => strContains t tag) := by
  unfold Mem.foundTag
  rw [foldl_flag]
  simp

/-- An append-one-per-hit fold is the accumulator followed by a filter. -/
theorem foldl_append_filter (p : Recipe → Bool) (l : List Recipe) (acc : List Recipe) :
    l.foldl (fun a r => if p r then a ++ [r] else a) acc = acc ++ l.filter p := by
  induction l generalizing acc with
  | nil => simp
  | cons r rest ih =>
    cases hp : p r <;> simp [List.foldl_cons, hp, ih, List.filter_cons]

/-- The in-memory search loop is a plain filter over the store: every
matching record appears exactly once, in store order. -/
theorem mem_searchList_eq (recipes : List Recipe) (tag : String) :
    Mem.searchList recipes tag
      = recipes.filter (fun r => r.Tags.any (fun t => strContains t tag)) := by
  unfold Mem.searchList
  rw [foldl_append_filter]
  simp only [foundTag_eq_any, List.nil_append]

/-- The database search's inner tag loop appends one copy of the row per
matching tag. -/
theorem foldl_tags_append (q : String → Bool) (r : Recipe) (ts : List String)
    (acc : List Recipe) :
    ts.foldl (fun a t => if q t then a ++ [r] else a) acc
      = acc ++ (ts.filter q).map (fun _ => r) := by
  induction ts generalizing acc with
  | nil => simp
  | cons t rest ih =>
    cases hq : q t <;> simp [List.foldl_cons, hq, ih, List.filter_cons]

/-- The database search loop is a flat-map: each row contributes one copy of
itself per tag that passes the lowered containment test. -/
theorem db_searchList_eq (dbr : List Recipe) (tag : String) :
    Db.searchList dbr tag
      = dbr.flatMap (fun r =>
          ((r.Tags.filter
              (fun t => strContains (strToLower t) (strToLower tag))).map
            (fun _ => r))) := by
  unfold Db.searchList
  suffices h : ∀ acc : List Recipe,
      dbr.foldl
        (fun acc r =>
          r.Tags.foldl
            (fun acc2 t =>
              if strContains (strToLower t) (strToLower tag) then acc2 ++ [r] else acc2)
            acc)
        acc
      = acc ++ dbr.flatMap (fun r =>
          ((r.Tags.filter
              (fun t => strContains (strToLower t) (strToLower tag))).map
            (fun _ => r))) by
    simpa using h []
  induction dbr with
  | nil => intro acc; simp
  | cons r rest ih =>
    intro acc
    rw [List.foldl_cons, foldl_tags_append, ih, List.flatMap_cons, List.append_assoc]

/-- Members of the in-memory search result come from the store. -/
theorem mem_searchList_subset (recipes : List Recipe) (tag : String) (r : Recipe)
    (h : r ∈ Mem.searchList recipes tag) : r ∈ recipes := by
  rw [mem_searchList_eq] at h
  exact (List.mem_filter.mp h).1

/-- Members of the database search result come from the table. -/
theorem db_searchList_subset (dbr : List Recipe) (tag : String) (r : Recipe)
    (h : r ∈ Db.searchList dbr tag) : r ∈ dbr := by
  rw [db_searchList_eq] at h
  obtain ⟨a, ha, hr⟩ := List.mem_flatMap.mp h
  obtain ⟨t, _, hta⟩ := List.mem_map.mp hr
  exact hta ▸ ha

/-- Replacing, in a table, every row that carries the found row's id by a row
carrying the same id leaves `First` on that id answering the replacement. -/
theorem find?_update_row (id : String) (existing merged : Recipe)
    (hm : merged.ID = existing.ID) (hex : (existing.ID == id) = true) :
    ∀ dbr : List Recipe, dbr.find? (fun r => r.ID == id) = some existing →
      (dbr.map (fun r => if r.ID == existing.ID then merged else r)).find?
          (fun r => r.ID == id) = some merged := by
  intro dbr
  induction dbr with
  | nil => intro h; simp at h
  | cons r rest ih =>
    intro hfind
    by_cases hr : (r.ID == id) = true
    · rw [@List.find?_cons_of_pos Recipe (fun x => x.ID == id) r rest hr] at hfind
      have hre : r = existing := by injection hfind
      subst hre
      simp only [List.map_cons, beq_self_eq_true, ite_true]
      exact @List.find?_cons_of_pos Recipe (fun x => x.ID == id) merged _
        (by simpa [hm] using hex)
    · rw [@List.find?_cons_of_neg Recipe (fun x => x.ID == id) r rest hr] at hfind
      simp only [List.map_cons]
      by_cases hre : (r.ID == existing.ID) = true
      · rw [if_pos hre]
        exact @List.find?_cons_of_pos Recipe (fun x => x.ID == id) merged _
          (by simpa [hm] using hex)
      · rw [if_neg hre]
        rw [@List.find?_cons_of_neg Recipe (fun x => x.ID == id) r _ hr]
        exact ih hfind

/-- The bulk-load loop keeps the batch length. -/
theorem loadLoop_length (gen : Nat → String) (nows : Nat → Nat) (file : List Recipe)
    (base : Nat) : (Db.loadLoop gen nows base file).length = file.length := by
  induction file generalizing base with
  | nil => rfl
  | cons r rest ih => simp [Db.loadLoop, ih]

/-- Elementwise description of the bulk-load loop: the record at position
`i` keeps every field as parsed except that an empty id becomes the fresh
id generated at that iteration and a zero timestamp becomes that
iteration's clock reading. -/
theorem loadLoop_spec (gen : Nat → String) (nows : Nat → Nat) :
    ∀ (file : List Recipe) (base i : Nat) (r : Recipe), file[i]? = some r →
      ∃ r2, (Db.loadLoop gen nows base file)[i]? = some r2 ∧
        r2.ID = (if r.ID = "" then gen (base + i) else r.ID) ∧
        r2.PublishedAt = (if r.PublishedAt = 0 then nows (base + i) else r.PublishedAt) ∧
        r2.Name = r.Name ∧ r2.Tags = r.Tags ∧
        r2.Ingredients = r.Ingredients ∧ r2.Instructions = r.Instructions := by
  intro file
  induction file with
  | nil => intro base i r h; simp at h
  | cons a rest ih =>
    intro base i r h
    cases i with
    | zero =>
      rw [List.getElem?_cons_zero] at h
      have ha : a = r := by injection h
      subst ha
      refine ⟨(if (if a.ID = "" then { a with ID := gen (base + 0) } else a).PublishedAt = 0
               then { (if a.ID = "" then { a with ID := gen (base + 0) } else a) with
                        PublishedAt := nows (base + 0) }
               else (if a.ID = "" then { a with ID := gen (base + 0) } else a)),
             ?_, ?_, ?_, ?_, ?_, ?_, ?_⟩
      · simp [Db.loadLoop]
      all_goals
        by_cases h1 : a.ID = "" <;> by_cases h2 : a.PublishedAt = 0 <;> simp [h1, h2]
    | succ k =>
      rw [List.getElem?_cons_succ] at h
      obtain ⟨r2, hr2, p1, p2, p3, p4, p5, p6⟩ := ih (base + 1) k r h
      have he : base + 1 + k = base + (k + 1) := by omega
      rw [he] at p1 p2
      refine ⟨r2, ?_, p1, p2, p3, p4, p5, p6⟩
      simpa [Db.loadLoop] using hr2

/-- Under unique ids, removing the record at the position holding a given id
leaves no record carrying that id. -/
theorem remove_at_no_match (recipes : List Recipe) (id : String) (j : Nat)
    (hj : j < recipes.length) (hmatch : recipes[j].ID = id)
    (hnd : (recipes.map Recipe.ID).Nodup) :
    ∀ r ∈ recipes.take j ++ recipes.drop (j + 1), r.ID ≠ id := by
  have hsplit : recipes = recipes.take j ++ recipes[j] :: recipes.drop (j + 1) := by
    conv_lhs => rw [← List.take_append_drop j recipes]
    rw [List.drop_eq_getElem_cons hj]
  intro r hr hrid
  have hnd2 : ((recipes.take j ++ recipes[j] :: recipes.drop (j + 1)).map Recipe.ID).Nodup := by
    rw [← hsplit]; exact hnd
  rw [List.map_append, List.map_cons, List.nodup_append] at hnd2
  obtain ⟨h1, h2, hdisj⟩ := hnd2
  rcases List.mem_append.mp hr with hta | hdr
  · have hin1 : r.ID ∈ (recipes.take j).map Recipe.ID :=
      List.mem_map.mpr ⟨r, hta, rfl⟩
    have hin2 : r.ID ∈ recipes[j].ID :: (recipes.drop (j + 1)).map Recipe.ID := by
      rw [hrid, ← hmatch]
      exact List.mem_cons_self _ _
    exact hdisj hin1 hin2
  · have hcons := List.nodup_cons.mp h2
    have hin : recipes[j].ID ∈ (recipes.drop (j + 1)).map Recipe.ID := by
      rw [hmatch, ← hrid]
      exact List.mem_map.mpr ⟨r, hdr, rfl⟩
    exact hcons.1 hin

/-- C1 counterexample: in the in-memory variant, updating the record stored
under id "a" (publishedAt 5) with an input carrying id "other" and
publishedAt 9 stores the input verbatim — the stored record's id becomes
"other" and its publishedAt becomes 9, so Update does not preserve `id` and
`publishedAt` regardless of what the input supplies. -/
theorem c1_counterexample :
    ((Mem.UpdateRecipeHandler [⟨"a", "Pasta", [], [], [], 5⟩] "a"
        ⟨"other", "Pasta", [], [], [], 9⟩).2).map Recipe.ID = ["other"] ∧
    ((Mem.UpdateRecipeHandler [⟨"a", "Pasta", [], [], [], 5⟩] "a"
        ⟨"other", "Pasta", [], [], [], 9⟩).2).map Recipe.PublishedAt = [9] ∧
    ("other" : String) ≠ "a" ∧ (9 : Nat) ≠ 5 := by
  decide

/-- C1 (amended): the database-backed variant's Update preserves the stored
record's `id` and `publishedAt` regardless of what the input supplies — the
returned record and the record subsequently found under that id carry the
pre-update values; the in-memory variant instead stores the bound input
verbatim, so the stored record takes the input's `id` and `publishedAt`. -/
theorem c1_update_preserves_identity (store : List Recipe) (id : String)
    (input : Recipe) :
    (∀ existing, store.find? (fun r => r.ID == id) = some existing →
      ∃ merged,
        (Db.UpdateRecipeHandler store id input).1 = Response.ok merged ∧
        merged.ID = existing.ID ∧
        merged.PublishedAt = existing.PublishedAt ∧
        Db.findByID (Db.UpdateRecipeHandler store id input).2 id = some merged) ∧
    (∀ j, (hj : j < store.length) → store[j].ID = id →
      (store.map Recipe.ID).Nodup →
        Mem.UpdateRecipeHandler store id input
          = (Response.ok input, store.set j input)) := by
  constructor
  · intro existing hfind
    have hex0 := List.find?_some hfind
    have hex : (existing.ID == id) = true := hex0
    have hmid : (Db.gormUpdates existing
        { input with ID := existing.ID, PublishedAt := existing.PublishedAt }).ID
        = existing.ID := by
      by_cases h : existing.ID = "" <;> simp [Db.gormUpdates, h]
    have hmpub : (Db.gormUpdates existing
        { input with ID := existing.ID, PublishedAt := existing.PublishedAt }).PublishedAt
        = existing.PublishedAt := by
      by_cases h : existing.PublishedAt = 0 <;> simp [Db.gormUpdates, h]
    refine ⟨_, ?_, hmid, hmpub, ?_⟩
    · simp [Db.UpdateRecipeHandler, hfind]
    · have h2 : (Db.UpdateRecipeHandler store id input).2
          = store.map (fun r => if r.ID == existing.ID
              then Db.gormUpdates existing
                { input with ID := existing.ID, PublishedAt := existing.PublishedAt }
              else r) := by
        simp [Db.UpdateRecipeHandler, hfind]
      rw [Db.findByID, h2]
      exact find?_update_row id existing _ hmid hex store hfind
  · intro j hj hjid hnd
    have hfi := findIndex_of_nodup store id j hj hjid hnd
    simp only [Mem.UpdateRecipeHandler, hfi]
    rw [if_neg (by omega)]
    simp

/-- C1 witness: the amended claim applied to a one-record store. -/
theorem c1_update_preserves_identity_witness :
    (([⟨"a", "P", ["t"], [], [], 5⟩] : List Recipe).find? (fun r => r.ID == "a")
        = some ⟨"a", "P", ["t"], [], [], 5⟩) ∧
    ∃ merged,
      (Db.UpdateRecipeHandler [⟨"a", "P", ["t"], [], [], 5⟩] "a"
          ⟨"zzz", "Q", ["u"], [], [], 9⟩).1 = Response.ok merged ∧
      merged.ID = "a" ∧
      merged.PublishedAt = 5 ∧
      Db.findByID (Db.UpdateRecipeHandler [⟨"a", "P", ["t"], [], [], 5⟩] "a"
          ⟨"zzz", "Q", ["u"], [], [], 9⟩).2 "a" = some merged :=
  ⟨by decide,
   (c1_update_preserves_identity [⟨"a", "P", ["t"], [], [], 5⟩] "a"
      ⟨"zzz", "Q", ["u"], [], [], 9⟩).1 ⟨"a", "P", ["t"], [], [], 5⟩ (by decide)⟩

/-- C2 counterexample: in the database-backed variant, updating the record
stored under "a" (tags ["old"]) with an input whose tags are omitted (the
zero value) leaves the stored tag list at ["old"], not empty — the gorm
`Updates` partial merge skips zero-valued fields, so Update is not a full
replace there. -/
theorem c2_counterexample :
    ((Db.UpdateRecipeHandler [⟨"a", "Old", ["old"], ["i"], ["s"], 5⟩] "a"
        ⟨"", "Cake", [], [], [], 0⟩).2).map Recipe.Tags = [["old"]] ∧
    (["old"] : List String) ≠ [] := by
  decide

/-- C2 (amended): the in-memory variant's Update is a full replace — the
stored record becomes the input wholesale, so omitted/empty fields end up
empty; the database-backed variant's Update is a partial merge that keeps
the existing value of every zero-valued input field (`""` for name, the
empty list for tags/ingredients/instructions), so omitting `tags` keeps the
prior tag list. -/
theorem c2_update_merge_semantics (store : List Recipe) (id : String)
    (input : Recipe) :
    (∀ j, (hj : j < store.length) → store[j].ID = id →
      (store.map Recipe.ID).Nodup →
        ((Mem.UpdateRecipeHandler store id input).2)[j]? = some input) ∧
    (∀ existing, store.find? (fun r => r.ID == id) = some existing →
      ∃ merged,
        (Db.UpdateRecipeHandler store id input).1 = Response.ok merged ∧
        Db.findByID (Db.UpdateRecipeHandler store id input).2 id = some merged ∧
        merged.Name = (if input.Name = "" then existing.Name else input.Name) ∧
        merged.Tags = (if input.Tags = [] then existing.Tags else input.Tags) ∧
        merged.Ingredients =
          (if input.Ingredients = [] then existing.Ingredients else input.Ingredients) ∧
        merged.Instructions =
          (if input.Instructions = [] then existing.Instructions else input.Instructions)) := by
  constructor
  · intro j hj hjid hnd
    have hfi := findIndex_of_nodup store id j hj hjid hnd
    simp only [Mem.UpdateRecipeHandler, hfi]
    rw [if_neg (by omega)]
    simp [List.getElem?_set, hj]
  · intro existing hfind
    have hex0 := List.find?_some hfind
    have hex : (existing.ID == id) = true := hex0
    have hmid : (Db.gormUpdates existing
        { input with ID := existing.ID, PublishedAt := existing.PublishedAt }).ID
        = existing.ID := by
      by_cases h : existing.ID = "" <;> simp [Db.gormUpdates, h]
    refine ⟨Db.gormUpdates existing
        { input with ID := existing.ID, PublishedAt := existing.PublishedAt },
      ?_, ?_, ?_, ?_, ?_, ?_⟩
    · simp [Db.UpdateRecipeHandler, hfind]
    · have h2 : (Db.UpdateRecipeHandler store id input).2
          = store.map (fun r => if r.ID == existing.ID
              then Db.gormUpdates existing
                { input with ID := existing.ID, PublishedAt := existing.PublishedAt }
              else r) := by
        simp [Db.UpdateRecipeHandler, hfind]
      rw [Db.findByID, h2]
      exact find?_update_row id existing _ hmid hex store hfind
    · simp [Db.gormUpdates]
    · simp [Db.gormUpdates]
    · simp [Db.gormUpdates]
    · simp [Db.gormUpdates]

/-- C2 witness: the amended claim applied to a store where the input omits
its tags, ingredients and instructions. -/
theorem c2_update_merge_semantics_witness :
    (([⟨"a", "Old", ["old"], ["i"], ["s"], 5⟩] : List Recipe).find?
        (fun r => r.ID == "a") = some ⟨"a", "Old", ["old"], ["i"], ["s"], 5⟩) ∧
    ∃ merged,
      (Db.UpdateRecipeHandler [⟨"a", "Old", ["old"], ["i"], ["s"], 5⟩] "a"
          ⟨"", "Cake", [], [], [], 0⟩).1 = Response.ok merged ∧
      Db.findByID (Db.UpdateRecipeHandler [⟨"a", "Old", ["old"], ["i"], ["s"], 5⟩] "a"
          ⟨"", "Cake", [], [], [], 0⟩).2 "a" = some merged ∧
      merged.Name = "Cake" ∧
      merged.Tags = ["old"] ∧
      merged.Ingredients = ["i"] ∧
      merged.Instructions = ["s"] :=
  ⟨by decide,
   (c2_update_merge_semantics [⟨"a", "Old", ["old"], ["i"], ["s"], 5⟩] "a"
      ⟨"", "Cake", [], [], [], 0⟩).2 ⟨"a", "Old", ["old"], ["i"], ["s"], 5⟩ (by decide)⟩

/-- C3 counterexample: in the in-memory variant a record tagged ["Dessert"]
is NOT returned for the search tag "dessert", although lowercase("Dessert")
contains lowercase("dessert") as a substring — that variant's matching is
case-sensitive, so matching is not case-insensitive for every variant. -/
theorem c3_counterexample :
    Mem.searchList [⟨"a", "Cake", ["Dessert"], [], [], 1⟩] "dessert" = [] ∧
    strContains (strToLower "Dessert") (strToLower "dessert") = true := by
  decide

/-- C3 (amended): the database-backed variant's search matching is
case-insensitive and substring-based — a record appears in the result iff
some tag, lowercased, contains the lowercased search tag; the in-memory
variant's matching is case-sensitive — a record appears in its result iff
some tag contains the search tag literally. -/
theorem c3_search_predicate (store : List Recipe) (tag : String) (r : Recipe) :
    (r ∈ Db.searchList store tag ↔
      r ∈ store ∧ ∃ t ∈ r.Tags, strContains (strToLower t) (strToLower tag) = true) ∧
    (r ∈ Mem.searchList store tag ↔
      r ∈ store ∧ ∃ t ∈ r.Tags, strContains t tag = true) := by
  constructor
  · rw [db_searchList_eq]
    constructor
    · intro h
      obtain ⟨a, ha, hr⟩ := List.mem_flatMap.mp h
      obtain ⟨t, ht, hta⟩ := List.mem_map.mp hr
      have har : a = r := hta
      subst har
      obtain ⟨ht1, ht2⟩ := List.mem_filter.mp ht
      exact ⟨ha, t, ht1, ht2⟩
    · rintro ⟨hmem, t, ht, hc⟩
      exact List.mem_flatMap.mpr
        ⟨r, hmem, List.mem_map.mpr ⟨t, List.mem_filter.mpr ⟨ht, hc⟩, rfl⟩⟩
  · rw [mem_searchList_eq, List.mem_filter]
    constructor
    · rintro ⟨hmem, hp⟩
      obtain ⟨t, ht, hc⟩ := List.any_eq_true.mp hp
      exact ⟨hmem, t, ht, hc⟩
    · rintro ⟨hmem, t, ht, hc⟩
      exact ⟨hmem, List.any_eq_true.mpr ⟨t, ht, hc⟩⟩

/-- C4: the claim is right and the code is wrong. On an empty search tag the
database-backed handler writes the 400 ValidationError object but — lacking
an early return — still scans the whole store and also writes the full
record list (every record with at least one tag matches the empty
substring); the in-memory variant performs no validation at all and
silently returns those records. Evaluated at a one-record store. -/
theorem c4_empty_tag_not_aborted :
    Db.SearchRecipesHandler [⟨"a", "Pie", ["sweet"], [], [], 1⟩] ""
      = [Response.badRequest "Tag is required",
         Response.okList [⟨"a", "Pie", ["sweet"], [], [], 1⟩]] ∧
    Mem.SearchRecipesHandler [⟨"a", "Pie", ["sweet"], [], [], 1⟩] ""
      = Response.okList [⟨"a", "Pie", ["sweet"], [], [], 1⟩] := by
  decide

/-- C5 counterexample: in the database-backed variant a record whose two
tags ["aa", "ab"] both match the search tag "a" appears TWICE in the search
result — the inner loop appends once per matching tag — so a matching
record does not appear exactly once. -/
theorem c5_counterexample :
    Db.searchList [⟨"a", "A", ["aa", "ab"], [], [], 1⟩] "a"
      = [⟨"a", "A", ["aa", "ab"], [], [], 1⟩, ⟨"a", "A", ["aa", "ab"], [], [], 1⟩] ∧
    (Db.searchList [⟨"a", "A", ["aa", "ab"], [], [], 1⟩] "a").length ≠ 1 := by
  decide

/-- C5 (amended): the in-memory variant's search is exactly a filter of the
store — each record matching its (case-sensitive) predicate appears exactly
once, in store order; the database-backed variant's search is a flat-map
that emits one copy of the record per tag passing the (case-insensitive)
test, in store order — a record with several matching tags appears several
times. -/
theorem c5_search_result_shape (store : List Recipe) (tag : String) :
    Mem.searchList store tag
      = store.filter (fun r => r.Tags.any (fun t => strContains t tag)) ∧
    Db.searchList store tag
      = store.flatMap (fun r =>
          ((r.Tags.filter (fun t => strContains (strToLower t) (strToLower tag))).map
            (fun _ => r))) :=
  ⟨mem_searchList_eq store tag, db_searchList_eq store tag⟩

/-- C6: Create overwrites any id and publishedAt supplied in the input with
the freshly generated identifier and the current time, stores the record by
appending it, and — under the identifier generator's contract (spec §4.2:
globally unique, here a hypothesis on the generated id) — the stored id is
non-empty and distinct from every previously stored id. Holds in both the
database-backed and the in-memory variant. -/
theorem c6_create_assigns_fresh (store : List Recipe) (input : Recipe)
    (freshId : String) (now : Nat)
    (hfresh : freshId ≠ "") (hdist : ∀ r ∈ store, r.ID ≠ freshId) :
    ∃ created : Recipe,
      Db.NewRecipeHandler store input freshId now
        = (Response.ok created, store ++ [created]) ∧
      Mem.NewRecipeHandler store input freshId now
        = (Response.ok created, store ++ [created]) ∧
      created.ID = freshId ∧ created.ID ≠ "" ∧ created.PublishedAt = now ∧
      created.ID ∉ store.map Recipe.ID ∧
      created.Name = input.Name ∧ created.Tags = input.Tags ∧
      created.Ingredients = input.Ingredients ∧
      created.Instructions = input.Instructions := by
  have hany : store.any (fun r => r.ID == freshId) = false := by
    rw [List.any_eq_false]
    intro r hr
    simpa using hdist r hr
  refine ⟨{ input with ID := freshId, PublishedAt := now },
    ?_, rfl, rfl, hfresh, rfl, ?_, rfl, rfl, rfl, rfl⟩
  · simp [Db.NewRecipeHandler, hany]
  · intro hmem
    obtain ⟨r, hr, hrid⟩ := List.mem_map.mp hmem
    exact hdist r hr hrid

/-- C6 witness: creating over a one-record store with a junk id and
timestamp in the input. -/
theorem c6_create_assigns_fresh_witness :
    (("f1" : String) ≠ "" ∧
      ∀ r ∈ ([⟨"a", "A", [], [], [], 1⟩] : List Recipe), r.ID ≠ "f1") ∧
    ∃ created : Recipe,
      Db.NewRecipeHandler [⟨"a", "A", [], [], [], 1⟩]
          ⟨"ignored", "N", ["t"], [], [], 99⟩ "f1" 7
        = (Response.ok created, [⟨"a", "A", [], [], [], 1⟩] ++ [created]) ∧
      Mem.NewRecipeHandler [⟨"a", "A", [], [], [], 1⟩]
          ⟨"ignored", "N", ["t"], [], [], 99⟩ "f1" 7
        = (Response.ok created, [⟨"a", "A", [], [], [], 1⟩] ++ [created]) ∧
      created.ID = "f1" ∧ created.ID ≠ "" ∧ created.PublishedAt = 7 ∧
      created.ID ∉ ([⟨"a", "A", [], [], [], 1⟩] : List Recipe).map Recipe.ID ∧
      created.Name = "N" ∧ created.Tags = ["t"] ∧
      created.Ingredients = [] ∧ created.Instructions = [] :=
  ⟨⟨by decide, by decide⟩,
   c6_create_assigns_fresh [⟨"a", "A", [], [], [], 1⟩]
     ⟨"ignored", "N", ["t"], [], [], 99⟩ "f1" 7 (by decide) (by decide)⟩

/-- C7 counterexample: the in-memory variant's startup load stores the
parsed file records verbatim — a file record with a missing (empty) id and
a missing (zero) timestamp is stored with its id still empty and its
timestamp still zero, so the bulk load does not assign a fresh id or a
current timestamp to records missing them. -/
theorem c7_counterexample :
    (Mem.init [⟨"", "X", [], [], [], 0⟩]).map Recipe.ID = [""] ∧
    (Mem.init [⟨"", "X", [], [], [], 0⟩]).map Recipe.PublishedAt = [0] := by
  decide

/-- C7 (amended): the database-backed startup load discards the store's
prior contents entirely and inserts exactly the file's records, assigning
the iteration's fresh id to each record whose id is empty and the
iteration's clock reading to each record whose timestamp is zero, keeping
every supplied id/timestamp and all other fields; the in-memory variant's
startup load instead stores the parsed file verbatim, assigning nothing. -/
theorem c7_bulk_load (file prior : List Recipe) (gen : Nat → String)
    (nows : Nat → Nat) :
    Mem.init file = file ∧
    Db.loadInitialData file prior gen nows = Db.loadInitialData file [] gen nows ∧
    (Db.loadInitialData file prior gen nows).length = file.length ∧
    (∀ i r, file[i]? = some r →
      ∃ r2, (Db.loadInitialData file prior gen nows)[i]? = some r2 ∧
        r2.ID = (if r.ID = "" then gen i else r.ID) ∧
        r2.PublishedAt = (if r.PublishedAt = 0 then nows i else r.PublishedAt) ∧
        r2.Name = r.Name ∧ r2.Tags = r.Tags ∧
        r2.Ingredients = r.Ingredients ∧ r2.Instructions = r.Instructions) := by
  refine ⟨rfl, rfl, loadLoop_length gen nows file 0, ?_⟩
  intro i r h
  simpa using loadLoop_spec gen nows file 0 i r h

/-- C7 witness: a two-record file, one record missing both id and
timestamp, one carrying both. -/
theorem c7_bulk_load_witness :
    (([⟨"", "X", [], [], [], 0⟩, ⟨"keep", "Y", [], [], [], 3⟩] : List Recipe)[0]?
        = some ⟨"", "X", [], [], [], 0⟩) ∧
    ∃ r2,
      (Db.loadInitialData [⟨"", "X", [], [], [], 0⟩, ⟨"keep", "Y", [], [], [], 3⟩]
          [⟨"p", "P", [], [], [], 1⟩] (fun _ => "g0") (fun _ => 7))[0]? = some r2 ∧
      r2.ID = "g0" ∧
      r2.PublishedAt = 7 ∧
      r2.Name = "X" ∧ r2.Tags = [] ∧
      r2.Ingredients = [] ∧ r2.Instructions = [] :=
  ⟨rfl,
   (c7_bulk_load [⟨"", "X", [], [], [], 0⟩, ⟨"keep", "Y", [], [], [], 3⟩]
      [⟨"p", "P", [], [], [], 1⟩] (fun _ => "g0") (fun _ => 7)).2.2.2 0
      ⟨"", "X", [], [], [], 0⟩ rfl⟩

/-- C8: when the store holds (at position j) a record carrying the deleted
id and ids are unique, Delete succeeds in both variants with the
confirmation message "Recipe has been deleted", and afterwards findByID on
that id fails (answers none, the NotFound case), no stored record carries
the id, and no search result — for any tag — contains a record with it. -/
theorem c8_delete_then_absent (recipes : List Recipe) (id : String) (j : Nat)
    (hj : j < recipes.length) (hjid : recipes[j].ID = id)
    (hnd : (recipes.map Recipe.ID).Nodup) :
    (Mem.DeleteRecipeHandler recipes id).1
      = Response.message "Recipe has been deleted" ∧
    (Db.DeleteRecipeHandler recipes id).1
      = Response.message "Recipe has been deleted" ∧
    Mem.findByID (Mem.DeleteRecipeHandler recipes id).2 id = none ∧
    Db.findByID (Db.DeleteRecipeHandler recipes id).2 id = none ∧
    (∀ r ∈ (Mem.DeleteRecipeHandler recipes id).2, r.ID ≠ id) ∧
    (∀ r ∈ (Db.DeleteRecipeHandler recipes id).2, r.ID ≠ id) ∧
    (∀ tag r, r ∈ Mem.searchList (Mem.DeleteRecipeHandler recipes id).2 tag →
      r.ID ≠ id) ∧
    (∀ tag r, r ∈ Db.searchList (Db.DeleteRecipeHandler recipes id).2 tag →
      r.ID ≠ id) := by
  have hfi := findIndex_of_nodup recipes id j hj hjid hnd
  have hmemdel : Mem.DeleteRecipeHandler recipes id
      = (Response.message "Recipe has been deleted",
         recipes.take j ++ recipes.drop (j + 1)) := by
    simp only [Mem.DeleteRecipeHandler, hfi]
    rw [if_neg (by omega)]
    simp
  have hsome : (recipes.find? (fun r => r.ID == id)).isSome := by
    rw [List.find?_isSome]
    exact ⟨recipes[j], List.getElem_mem hj, by simpa using hjid⟩
  obtain ⟨rr, hrr⟩ := Option.isSome_iff_exists.mp hsome
  have hrrid0 := List.find?_some hrr
  have hrrid : rr.ID = id := by simpa using hrrid0
  have hdbdel : Db.DeleteRecipeHandler recipes id
      = (Response.message "Recipe has been deleted",
         recipes.filter (fun r => !(r.ID == rr.ID))) := by
    simp [Db.DeleteRecipeHandler, hrr]
  have hmemgone : ∀ r ∈ (Mem.DeleteRecipeHandler recipes id).2, r.ID ≠ id := by
    rw [hmemdel]
    exact remove_at_no_match recipes id j hj hjid hnd
  have hdbgone : ∀ r ∈ (Db.DeleteRecipeHandler recipes id).2, r.ID ≠ id := by
    rw [hdbdel]
    intro r hr hreq
    have hmf := (List.mem_filter.mp hr).2
    rw [hreq, hrrid] at hmf
    simp at hmf
  refine ⟨by rw [hmemdel], by rw [hdbdel], ?_, ?_, hmemgone, hdbgone, ?_, ?_⟩
  · have hno := findIndex_of_no_match _ id hmemgone
    simp [Mem.findByID, hno]
  · rw [Db.findByID, List.find?_eq_none]
    intro x hx
    simpa using hdbgone x hx
  · intro tag r hr
    exact hmemgone r (mem_searchList_subset _ tag r hr)
  · intro tag r hr
    exact hdbgone r (db_searchList_subset _ tag r hr)

/-- C8 witness: deleting "a" from a two-record store. -/
theorem c8_delete_then_absent_witness :
    ((0 : Nat) < ([⟨"a", "A", ["x"], [], [], 1⟩, ⟨"b", "B", ["y"], [], [], 2⟩]
        : List Recipe).length) ∧
    (Mem.DeleteRecipeHandler [⟨"a", "A", ["x"], [], [], 1⟩, ⟨"b", "B", ["y"], [], [], 2⟩]
        "a").1 = Response.message "Recipe has been deleted" :=
  ⟨by decide,
   (c8_delete_then_absent
      [⟨"a", "A", ["x"], [], [], 1⟩, ⟨"b", "B", ["y"], [], [], 2⟩] "a" 0
      (by decide) (by decide) (by decide)).1⟩

/-- C9: when no stored record carries the id, Update and Delete fail with
the 404 NotFound response in both variants and the store is returned
entirely unchanged. -/
theorem c9_miss_is_noop (recipes : List Recipe) (id : String) (input : Recipe)
    (habs : ∀ r ∈ recipes, r.ID ≠ id) :
    Mem.UpdateRecipeHandler recipes id input
      = (Response.notFound "Recipe not found", recipes) ∧
    Mem.DeleteRecipeHandler recipes id
      = (Response.notFound "Recipe not found", recipes) ∧
    Db.UpdateRecipeHandler recipes id input
      = (Response.notFound "Recipe not found", recipes) ∧
    Db.DeleteRecipeHandler recipes id
      = (Response.notFound "Recipe not found", recipes) := by
  have hfi := findIndex_of_no_match recipes id habs
  have hfn : recipes.find? (fun r => r.ID == id) = none := by
    rw [List.find?_eq_none]
    intro x hx
    simpa using habs x hx
  refine ⟨?_, ?_, ?_, ?_⟩
  · simp [Mem.UpdateRecipeHandler, hfi]
  · simp [Mem.DeleteRecipeHandler, hfi]
  · simp [Db.UpdateRecipeHandler, hfn]
  · simp [Db.DeleteRecipeHandler, hfn]

/-- C9 witness: updating and deleting a missing id over a one-record
store. -/
theorem c9_miss_is_noop_witness :
    (∀ r ∈ ([⟨"a", "A", [], [], [], 1⟩] : List Recipe), r.ID ≠ "zzz") ∧
    Mem.UpdateRecipeHandler [⟨"a", "A", [], [], [], 1⟩] "zzz"
        ⟨"q", "Q", [], [], [], 9⟩
      = (Response.notFound "Recipe not found", [⟨"a", "A", [], [], [], 1⟩]) :=
  ⟨by decide,
   (c9_miss_is_noop [⟨"a", "A", [], [], [], 1⟩] "zzz"
      ⟨"q", "Q", [], [], [], 9⟩ (by decide)).1⟩

/-- C10: in the in-memory variant, with unique ids and the target stored at
position j, Delete removes exactly the record at j — the result is the
records before j followed by the records after j, keeping their relative
order — and Update replaces the record at j in place, leaving every other
position untouched. -/
theorem c10_untargeted_positions_preserved (recipes : List Recipe) (id : String)
    (input : Recipe) (j : Nat) (hj : j < recipes.length)
    (hjid : recipes[j].ID = id) (hnd : (recipes.map Recipe.ID).Nodup) :
    Mem.DeleteRecipeHandler recipes id
      = (Response.message "Recipe has been deleted",
         recipes.take j ++ recipes.drop (j + 1)) ∧
    Mem.UpdateRecipeHandler recipes id input
      = (Response.ok input, recipes.set j input) := by
  have hfi := findIndex_of_nodup recipes id j hj hjid hnd
  constructor
  · simp only [Mem.DeleteRecipeHandler, hfi]
    rw [if_neg (by omega)]
    simp
  · simp only [Mem.UpdateRecipeHandler, hfi]
    rw [if_neg (by omega)]
    simp

/-- C10 witness: deleting and updating the middle record of a three-record
store keeps the outer records in place. -/
theorem c10_untargeted_positions_preserved_witness :
    ((1 : Nat) < ([⟨"a", "A", [], [], [], 1⟩, ⟨"b", "B", [], [], [], 2⟩,
        ⟨"c", "C", [], [], [], 3⟩] : List Recipe).length) ∧
    Mem.DeleteRecipeHandler [⟨"a", "A", [], [], [], 1⟩, ⟨"b", "B", [], [], [], 2⟩,
        ⟨"c", "C", [], [], [], 3⟩] "b"
      = (Response.message "Recipe has been deleted",
         [⟨"a", "A", [], [], [], 1⟩, ⟨"c", "C", [], [], [], 3⟩]) :=
  ⟨by decide,
   (c10_untargeted_positions_preserved
      [⟨"a", "A", [], [], [], 1⟩, ⟨"b", "B", [], [], [], 2⟩,
       ⟨"c", "C", [], [], [], 3⟩] "b" ⟨"x", "X", [], [], [], 9⟩ 1
      (by decide) (by decide) (by decide)).1⟩
